import Mathlib

/-!
Verification of the attestation-and-indexing pipeline of the
`anshitraj/zama` repository: a shallow embedding in Lean 4 of

  * the `ConfidentialExpenses` Solidity contract (attestation ledger),
  * the backend event indexer (`EthListener.handleExpenseAttested`,
    a Prisma upsert keyed on the `cid` unique index),
  * the records / proof query routes (`routes/records.ts`),
  * the IPFS content-store service (`services/ipfsService.ts`),
  * the coprocessor aggregation service (`services/coprocService.ts`)
    and its HTTP route (`routes/coproc.ts`),

together with theorems settling the testable properties stated in the
specification.  External I/O (the chain, the IPFS gateway, the engine,
JS `Math.random`) is modelled by explicit oracle parameters; machine
integers are `Nat`; fallible calls return `Except`.
-/

namespace Zama

/-! ## Attestation ledger (`ConfidentialExpenses.sol`)

Contract storage:
  `mapping(address => string[]) private userCids;`
  `mapping(bytes32 => bool) private attestedHashes;`
Addresses and `bytes32` values are modelled as strings.  Emitted events
are recorded in an append-only log so that the event-emission clause of
`attestExpense` is part of the model. -/

structure AttestEvent where
  user : String
  submissionHash : String
  cid : String
  timestamp : Nat
  txMeta : String
deriving DecidableEq, Repr

structure LedgerState where
  userCids : String → List String
  attestedHashes : String → Bool
  events : List AttestEvent

/-- The contract's initial storage: empty mappings, no events. -/
def emptyLedger : LedgerState :=
  { userCids := fun _ => []
    attestedHashes := fun _ => false
    events := [] }

/-- `attestExpense(submissionHash, cid, txMeta)`:
`require(!attestedHashes[submissionHash], "Already attested")`, then
push `cid` onto `userCids[msg.sender]`, mark the hash attested and emit
`ExpenseAttested(msg.sender, submissionHash, cid, block.timestamp, txMeta)`. -/
def attestExpense (s : LedgerState) (sender submissionHash cid txMeta : String)
    (timestamp : Nat) : Except String LedgerState :=
  if s.attestedHashes submissionHash then
    .error "Already attested"
  else
    .ok
      { userCids := fun a =>
          if a = sender then s.userCids sender ++ [cid] else s.userCids a
        attestedHashes := fun h =>
          if h = submissionHash then true else s.attestedHashes h
        events := s.events ++
          [{ user := sender, submissionHash := submissionHash, cid := cid
             timestamp := timestamp, txMeta := txMeta }] }

/-- An EVM revert leaves storage untouched: run `attestExpense` and keep
the old state when the transaction reverts. -/
def applyAttest (s : LedgerState) (sender submissionHash cid txMeta : String)
    (timestamp : Nat) : LedgerState :=
  match attestExpense s sender submissionHash cid txMeta timestamp with
  | .ok s' => s'
  | .error _ => s

/-- `registerPublicKey(publicKey)`: no storage write in the active
(fallback) version, only a `PublicKeyRegistered` event, which touches no
mapping we track. -/
def registerPublicKey (s : LedgerState) (_sender _publicKey : String) : LedgerState :=
  s

/-- `isAttested(submissionHash)`. -/
def isAttested (s : LedgerState) (submissionHash : String) : Bool :=
  s.attestedHashes submissionHash

/-- `getUserCids(user)`. -/
def getUserCids (s : LedgerState) (user : String) : List String :=
  s.userCids user

/-- `getUserAttestationCount(user)` returns `userCids[user].length`. -/
def getUserAttestationCount (s : LedgerState) (user : String) : Nat :=
  (s.userCids user).length

/-- The contract's externally callable state-changing operations. -/
inductive LedgerOp where
  | attest (sender submissionHash cid txMeta : String) (timestamp : Nat)
  | registerKey (sender publicKey : String)
deriving DecidableEq, Repr

/-- One transaction against the contract (reverts keep the old state). -/
def ledgerStep (s : LedgerState) : LedgerOp → LedgerState
  | .attest sender h cid meta ts => applyAttest s sender h cid meta ts
  | .registerKey sender pk => registerPublicKey s sender pk

/-! ## Event indexer and relational store

The `expenses` table (Prisma migration `20251030171627_init`) with its
unique indexes on `cid` and `submissionHash`.  A table is a list of
rows; the unique indexes are honoured by the upsert model below.
`timestamp` is the event timestamp in milliseconds, `createdAt` /
`updatedAt` are row bookkeeping times. -/

structure ExpenseRecord where
  userAddress : String
  cid : String
  submissionHash : String
  txHash : String
  blockNumber : Option String
  timestamp : Nat
  category : Option String
  note : Option String
  status : String
  createdAt : Nat
  updatedAt : Nat
deriving DecidableEq, Repr

/-- `prisma.expense.findUnique({ where: { cid } })`: first (in a table
honouring the unique index: only) row with this `cid`. -/
def findByCid : List ExpenseRecord → String → Option ExpenseRecord
  | [], _ => none
  | r :: rest, cid => if r.cid = cid then some r else findByCid rest cid

/-- Does some row already carry this `submissionHash` (the second unique
index of the table)? -/
def hashTaken : List ExpenseRecord → String → Bool
  | [], _ => false
  | r :: rest, h => r.submissionHash = h || hashTaken rest h

/-- The row created by `EthListener.handleExpenseAttested`:
`userAddress` lowercased, `txHash` the placeholder `"pending"`,
`blockNumber` null, `timestamp` scaled from seconds to milliseconds,
`status` `"confirmed"`.  `now` stands for the DB-assigned
`createdAt`/`updatedAt` clock value. -/
def freshRecord (e : AttestEvent) (now : Nat) : ExpenseRecord :=
  { userAddress := e.user.toLower
    cid := e.cid
    submissionHash := e.submissionHash
    txHash := "pending"
    blockNumber := none
    timestamp := e.timestamp * 1000
    category := none
    note := none
    status := "confirmed"
    createdAt := now
    updatedAt := now }

/-- The `update: { status: "confirmed" }` clause of the upsert applied
to the row(s) matching the `cid` key: only `status` is written. -/
def confirmStatus (cid : String) (r : ExpenseRecord) : ExpenseRecord :=
  if r.cid = cid then { r with status := "confirmed" } else r

/-- `EthListener.handleExpenseAttested`: a Prisma
`upsert({ where: { cid }, create: {...}, update: { status: "confirmed" } })`.
If a row with the event's `cid` exists, only its `status` is set to
`"confirmed"`; otherwise a fresh confirmed row is inserted.  An insert
that would violate the `submissionHash` unique index throws inside the
listener's `try`, is logged and the event dropped, leaving the table
unchanged. -/
def handleEvent (db : List ExpenseRecord) (e : AttestEvent) (now : Nat) :
    List ExpenseRecord :=
  match findByCid db e.cid with
  | some _ => db.map (confirmStatus e.cid)
  | none =>
      if hashTaken db e.submissionHash then db
      else db ++ [freshRecord e now]

/-- Replay a sequence of events through the listener; each delivery is
paired with the wall-clock value at which it is processed. -/
def replay (db : List ExpenseRecord) : List (AttestEvent × Nat) → List ExpenseRecord
  | [] => db
  | (e, now) :: rest => replay (handleEvent db e now) rest

/-- The `cid` column of a table. -/
def cidsOf (db : List ExpenseRecord) : List String :=
  db.map (fun r => r.cid)

/-! ## Query API (`routes/records.ts`) -/

/-- Descending-`timestamp` insertion for the indexer's read model:
Prisma's `orderBy: { timestamp: "desc" }`. -/
def insertTsDesc (r : ExpenseRecord) : List ExpenseRecord → List ExpenseRecord
  | [] => [r]
  | x :: xs => if r.timestamp ≤ x.timestamp then x :: insertTsDesc r xs
               else r :: x :: xs

/-- Sort rows by `timestamp` descending. -/
def sortTsDesc : List ExpenseRecord → List ExpenseRecord
  | [] => []
  | x :: xs => insertTsDesc x (sortTsDesc xs)

/-- Descending order on the `timestamp` column, as a relation for
`List.Pairwise`. -/
def tsGE (a b : ExpenseRecord) : Prop := b.timestamp ≤ a.timestamp

/-- Descending order on the `createdAt` column, as a relation for
`List.Pairwise`. -/
def createdAtGE (a b : ExpenseRecord) : Prop := b.createdAt ≤ a.createdAt

instance : DecidableRel tsGE := fun _ _ => Nat.decLe _ _

instance : DecidableRel createdAtGE := fun _ _ => Nat.decLe _ _

/-- The `where` clause of `GET /api/records`: equality filters on
`category` and on the lowercased `userAddress`, each applied only when
the query parameter is present. -/
def matchesFilter (category userAddress : Option String) (r : ExpenseRecord) : Bool :=
  (match category with
   | some c => r.category = some c
   | none => true) &&
  (match userAddress with
   | some u => r.userAddress = u.toLower
   | none => true)

/-- `GET /api/records`: `findMany({ where, orderBy: { timestamp: "desc" },
take: parseInt(limit) })` with `limit` defaulting to `"50"` when the
query parameter is absent.  No further cap is applied to `limit`. -/
def listRecords (db : List ExpenseRecord) (limit : Option Nat)
    (category userAddress : Option String) : List ExpenseRecord :=
  ((sortTsDesc (db.filter (matchesFilter category userAddress))).take (limit.getD 50))

/-- The body of a successful `GET /api/proof/:cid` response: exactly the
fields the handler copies out of the row. -/
structure ProofPayload where
  cid : String
  submissionHash : String
  txHash : String
  blockNumber : Option String
  timestamp : Nat
  userAddress : String
  category : Option String
deriving DecidableEq, Repr

/-- `GET /api/proof/:cid`: 404 when no row has this `cid`, otherwise the
metadata-only projection of the row. -/
def getProof (db : List ExpenseRecord) (cid : String) : Except Nat ProofPayload :=
  match findByCid db cid with
  | none => .error 404
  | some r =>
      .ok { cid := r.cid
            submissionHash := r.submissionHash
            txHash := r.txHash
            blockNumber := r.blockNumber
            timestamp := r.timestamp
            userAddress := r.userAddress
            category := r.category }

/-- The JSON keys of the `proof` object serialized by the handler, in
emission order. -/
def proofKeys : List String :=
  ["cid", "submissionHash", "txHash", "blockNumber", "timestamp",
   "userAddress", "category"]

/-- Render a proof payload as serialized key/value pairs (values shown
via `Repr`-like string conversion; only the key set matters for the
metadata-only contract). -/
def renderProof (p : ProofPayload) : List (String × String) :=
  [("cid", p.cid),
   ("submissionHash", p.submissionHash),
   ("txHash", p.txHash),
   ("blockNumber", p.blockNumber.getD "null"),
   ("timestamp", toString p.timestamp),
   ("userAddress", p.userAddress),
   ("category", p.category.getD "null")]

/-! ## Content store (`services/ipfsService.ts`)

Network effects (the Pinata pin endpoint, the gateway) are oracle
parameters; `Date.now()` and `Math.random()` outputs are explicit
arguments. -/

/-- Character-list version of a prefix test. -/
def isPre : List Char → List Char → Bool
  | [], _ => true
  | _ :: _, [] => false
  | a :: as, b :: bs => a = b && isPre as bs

/-- Does `pat` occur as a contiguous substring of `s` (JS
`s.includes(pat)`)? -/
def hasSubstrL (pat : List Char) : List Char → Bool
  | [] => pat.isEmpty
  | a :: as => isPre pat (a :: as) || hasSubstrL pat as

/-- `cid.includes("Mock")`-style containment on strings. -/
def hasSubstr (s pat : String) : Bool :=
  hasSubstrL pat.data s.data

/-- `IPFSService.getMockCid`: `` `QmMockDemo${timestamp}${random}` ``
with `timestamp = Date.now()` and `random` a base-36 fragment of
`Math.random()`. -/
def getMockCid (now : Nat) (rand : String) : String :=
  "QmMockDemo" ++ toString now ++ rand

/-- `IPFSService.upload`: when the Pinata API keys are unset, or the
Pinata upload throws, return a mock CID; otherwise return the CID minted
by Pinata.  `pinata` is the outcome of `uploadToPinata` on this
ciphertext. -/
def upload (hasKeys : Bool) (pinata : Except String String)
    (now : Nat) (rand : String) : String :=
  if !hasKeys then getMockCid now rand
  else
    match pinata with
    | .ok cid => cid
    | .error _ => getMockCid now rand

/-- `IPFSService.retrieve`: rejects mock CIDs up front
(`cid.includes("Mock") || cid === "QmYwAPJzv5CZsnAMockCID12345"`), then
fetches from the gateway (`gateway` maps a CID to the base64 payload or
a transport error). -/
def retrieve (gateway : String → Except String String) (cid : String) :
    Except String String :=
  if hasSubstr cid "Mock" || cid = "QmYwAPJzv5CZsnAMockCID12345" then
    .error "Mock CID detected - skipping"
  else
    match gateway cid with
    | .ok data => .ok data
    | .error msg => .error ("IPFS retrieval failed: " ++ msg)

/-! ## Coprocessor service (`services/coprocService.ts`) -/

structure CoprocessorResponse where
  resultCiphertext : String
  coprocVersion : String
  metaOp : String
  metaItemsCount : Nat
deriving DecidableEq, Repr

structure AggregateResult where
  outputCiphertext : String
  metaOp : String
  metaItemsCount : Nat
  coprocessorVersion : String
deriving DecidableEq, Repr

/-- The request the service signs and POSTs to the engine. -/
structure EngineRequest where
  ciphertexts : List String
  op : String
  targetType : String
  outputFormat : String
deriving DecidableEq, Repr

/-- Stand-in for `Buffer.from(JSON.stringify({value, type})).toString("base64")`
in the mock path; the encoding itself is opaque to every caller. -/
def encodeMockCiphertext (value : Nat) : String :=
  "base64(value=" ++ toString value ++ ",type=euint64)"

/-- The per-item draw `Math.floor(Math.random() * 1000) + 10`, with the
random stream given by `rand`. -/
def mockAmounts (rand : Nat → Nat) (n : Nat) : List Nat :=
  (List.range n).map (fun i => rand i % 1000 + 10)

/-- The `switch (op)` of the mock: `sum`/`max`/`min`/`avg`, any other
op summing (the `default` arm).  `max`/`min`/`avg` of the empty list
take the JS degenerate values' stand-ins (`0`), unreachable from the
validated route. -/
def mockOpResult (op : String) (amounts : List Nat) : Nat :=
  match op with
  | "sum" => amounts.foldl (· + ·) 0
  | "max" => amounts.foldl Nat.max 0
  | "min" =>
      match amounts with
      | [] => 0
      | a :: rest => rest.foldl Nat.min a
  | "avg" =>
      match amounts with
      | [] => 0
      | _ => (amounts.foldl (· + ·) 0) / amounts.length
  | _ => amounts.foldl (· + ·) 0

/-- `CoprocessorService.callMockCoprocessor`. -/
def callMockCoprocessor (rand : Nat → Nat) (ciphertexts : List String)
    (op : String) : CoprocessorResponse :=
  { resultCiphertext :=
      encodeMockCiphertext (mockOpResult op (mockAmounts rand ciphertexts.length))
    coprocVersion := "v0.9-mock"
    metaOp := op
    metaItemsCount := ciphertexts.length }

/-- `CoprocessorService.callRealCoprocessor`, instrumented with the
number of engine POSTs actually made.  With no `COPROCESSOR_URL`
configured it goes straight to the mock (zero engine calls); otherwise
it POSTs once and on failure falls back to the mock (one engine call,
zero retries). -/
def callRealCoprocessor (url : String)
    (engine : EngineRequest → Except String CoprocessorResponse)
    (rand : Nat → Nat) (ciphertexts : List String) (op : String) :
    CoprocessorResponse × Nat :=
  if url = "" then
    (callMockCoprocessor rand ciphertexts op, 0)
  else
    match engine { ciphertexts := ciphertexts, op := op,
                   targetType := "euint64", outputFormat := "ciphertext" } with
    | .ok r => (r, 1)
    | .error _ => (callMockCoprocessor rand ciphertexts op, 1)

/-- `Promise.all(cids.map((cid) => ipfsService.retrieve(cid)))`: all
fetches must succeed; any failure rejects the whole batch. -/
def fetchAll (fetch : String → Except String String) :
    List String → Except String (List String)
  | [] => .ok []
  | cid :: rest =>
      match fetch cid with
      | .error msg => .error msg
      | .ok ct =>
          match fetchAll fetch rest with
          | .error msg => .error msg
          | .ok cts => .ok (ct :: cts)

/-- `CoprocessorService.aggregate`: fetch every referenced ciphertext,
call the coprocessor, and repackage; a fetch failure is re-thrown as
`Coprocessor aggregation failed: ...` with no result. -/
def aggregate (fetch : String → Except String String) (url : String)
    (engine : EngineRequest → Except String CoprocessorResponse)
    (rand : Nat → Nat) (cids : List String) (op : String) :
    Except String AggregateResult :=
  match fetchAll fetch cids with
  | .error msg => .error ("Coprocessor aggregation failed: " ++ msg)
  | .ok ciphertexts =>
      let response := (callRealCoprocessor url engine rand ciphertexts op).1
      .ok { outputCiphertext := response.resultCiphertext
            metaOp := op
            metaItemsCount := cids.length
            coprocessorVersion := response.coprocVersion }

/-! ## Aggregation route (`routes/coproc.ts`) -/

/-- The `cids` field of the POST body as the handler's truthiness and
`Array.isArray` tests distinguish it. -/
inductive CidsField where
  | missing
  | notArray
  | arr (cids : List String)
deriving DecidableEq, Repr

structure AggregateBody where
  cids : CidsField
  op : Option String
deriving DecidableEq, Repr

inductive AggResponse where
  | badRequest (error : String)
  | ok (result : AggregateResult)
  | serverError (error : String)
deriving DecidableEq, Repr

/-- HTTP status code of a response. -/
def AggResponse.status : AggResponse → Nat
  | .badRequest _ => 400
  | .ok _ => 200
  | .serverError _ => 500

/-- `POST /api/coproc/aggregate`: reject a missing / non-array / empty
`cids` with 400, reject an op outside `{sum, max, min, avg}` with 400
(`op` defaults to `"sum"` when absent), otherwise run the aggregation
and map a thrown error to 500. -/
def postAggregate (fetch : String → Except String String) (url : String)
    (engine : EngineRequest → Except String CoprocessorResponse)
    (rand : Nat → Nat) (body : AggregateBody) : AggResponse :=
  match body.cids with
  | .missing => .badRequest "cids array is required and must not be empty"
  | .notArray => .badRequest "cids array is required and must not be empty"
  | .arr cids =>
      if cids.isEmpty then
        .badRequest "cids array is required and must not be empty"
      else
        let op := body.op.getD "sum"
        if op = "sum" ∨ op = "max" ∨ op = "min" ∨ op = "avg" then
          match aggregate fetch url engine rand cids op with
          | .ok result => .ok result
          | .error msg => .serverError msg
        else
          .badRequest "Invalid operation. Must be: sum, max, min, avg"

/-- The handler's validation predicate: a `cids` array that is present,
an array and non-empty, and an effective op among the four supported
aggregations. -/
def validBody (b : AggregateBody) : Bool :=
  match b.cids with
  | .arr (_ :: _) =>
      let op := b.op.getD "sum"
      op = "sum" || op = "max" || op = "min" || op = "avg"
  | _ => false

/-! ## Spec claims under test, stated as propositions where the claim
is to be compared against the code, and concrete fixtures. -/

/-- Spec claim on `GET /api/records` taken literally: results ordered by
`createdAt` descending, and some server-side hard maximum bounds the
result size whatever limit the client requests. -/
def claimListRecords : Prop :=
  (∀ db limit category userAddress,
     (listRecords db limit category userAddress).Pairwise createdAtGE) ∧
  (∃ hardMax : Nat, ∀ db (limit : Nat) category userAddress,
     (listRecords db (some limit) category userAddress).length ≤ hardMax)

/-- Spec claim on engine fallback taken literally: whenever the engine
is misconfigured (URL unset) or the single call fails, the service makes
exactly one engine attempt and returns the mock result. -/
def claimEngineFallback : Prop :=
  ∀ (url : String) (engine : EngineRequest → Except String CoprocessorResponse)
    (rand : Nat → Nat) (ciphertexts : List String) (op : String),
    (url = "" ∨
      ∃ m, engine { ciphertexts := ciphertexts, op := op,
                    targetType := "euint64", outputFormat := "ciphertext" } = .error m) →
    (callRealCoprocessor url engine rand ciphertexts op).2 = 1 ∧
    (callRealCoprocessor url engine rand ciphertexts op).1 =
      callMockCoprocessor rand ciphertexts op

/-- Ledger reached from the empty contract by one successful
`attestExpense` from `0xa`. -/
def ledger1 : LedgerState := applyAttest emptyLedger "0xa" "f1" "cid1" "0x" 1

/-- Fixture event. -/
def ev1 : AttestEvent :=
  { user := "0xA1", submissionHash := "h1", cid := "cid1", timestamp := 100, txMeta := "0x" }

/-- Fixture event with a distinct fingerprint and content address. -/
def ev2 : AttestEvent :=
  { user := "0xA2", submissionHash := "h2", cid := "cid2", timestamp := 200, txMeta := "0x" }

/-- Fixture row: old event timestamp, late row creation. -/
def rowEarlyTs : ExpenseRecord :=
  { userAddress := "0xa1", cid := "cidA", submissionHash := "hA", txHash := "pending"
    blockNumber := none, timestamp := 1000, category := none, note := none
    status := "confirmed", createdAt := 100, updatedAt := 100 }

/-- Fixture row: newer event timestamp, earlier row creation — the
backfill scan produces exactly this inversion between `timestamp` and
`createdAt`. -/
def rowLateTs : ExpenseRecord :=
  { userAddress := "0xa2", cid := "cidB", submissionHash := "hB", txHash := "pending"
    blockNumber := none, timestamp := 2000, category := none, note := none
    status := "confirmed", createdAt := 50, updatedAt := 50 }

/-- Fixture table for the proof-route witness. -/
def dbProof : List ExpenseRecord := [rowEarlyTs]

/-- Fixture row created pending (a local optimistic write), sharing
`cidA` with the event below. -/
def rowPending : ExpenseRecord :=
  { userAddress := "0xa1", cid := "cidA", submissionHash := "hA", txHash := "pending"
    blockNumber := none, timestamp := 1000, category := some "travel", note := some "n"
    status := "pending", createdAt := 10, updatedAt := 10 }

/-- Fixture event re-observing `cidA`. -/
def evA : AttestEvent :=
  { user := "0xA1", submissionHash := "hA", cid := "cidA", timestamp := 1, txMeta := "0x" }

/-- The proof payload the proof route serves for `rowEarlyTs`. -/
def proofA : ProofPayload :=
  { cid := "cidA", submissionHash := "hA", txHash := "pending", blockNumber := none
    timestamp := 1000, userAddress := "0xa1", category := none }

/-- Fixture content-store oracle that fails on `CIDx` only. -/
def fetchCIDx : String → Except String String :=
  fun cid => if cid = "CIDx" then .error "fetch failed" else .ok "Y2lwaGVydGV4dA=="

/-- Fixture gateway oracle that always serves a payload. -/
def gatewayOk : String → Except String String :=
  fun _ => .ok "ZGF0YQ=="

/-- Fixture engine oracle that always refuses the connection. -/
def engineDown : EngineRequest → Except String CoprocessorResponse :=
  fun _ => .error "connect ECONNREFUSED"

/-- Fixture random stream. -/
def randZero : Nat → Nat := fun _ => 0

/-! # Theorems -/

/-- Claim C1: For every fingerprint `f` not yet recorded, attesting
succeeds the first time; `isAttested f` is then `true`; a second attest
with the same `f` (any caller, cid, metadata) reverts with
`"Already attested"`, leaves the ledger state unchanged, and
`isAttested f` remains `true`. -/
theorem attest_duplicate_rejected (s : LedgerState)
    (sender sender' f cid cid' meta meta' : String) (ts ts' : Nat)
    (hfree : s.attestedHashes f = false) :
    ∃ s₁, attestExpense s sender f cid meta ts = .ok s₁ ∧
      isAttested s₁ f = true ∧
      attestExpense s₁ sender' f cid' meta' ts' = .error "Already attested" ∧
      applyAttest s₁ sender' f cid' meta' ts' = s₁ ∧
      isAttested (applyAttest s₁ sender' f cid' meta' ts') f = true := by
  have h1 : attestExpense s sender f cid meta ts = .ok
      { userCids := fun a =>
          if a = sender then s.userCids sender ++ [cid] else s.userCids a
        attestedHashes := fun h => if h = f then true else s.attestedHashes h
        events := s.events ++
          [{ user := sender, submissionHash := f, cid := cid,
             timestamp := ts, txMeta := meta }] } := by
    simp [attestExpense, hfree]
  refine ⟨_, h1, ?_, ?_, ?_, ?_⟩
  · simp [isAttested]
  · simp [attestExpense]
  · simp [applyAttest, attestExpense]
  · simp [applyAttest, attestExpense, isAttested]

/-- Closed instance of the duplicate-attestation theorem on the empty
ledger. -/
theorem attest_duplicate_rejected_witness :
    ∃ s₁, attestExpense emptyLedger "0xa" "f1" "cid1" "0x" 1 = .ok s₁ ∧
      isAttested s₁ "f1" = true ∧
      attestExpense s₁ "0xb" "f1" "cid2" "0x" 2 = .error "Already attested" ∧
      applyAttest s₁ "0xb" "f1" "cid2" "0x" 2 = s₁ ∧
      isAttested (applyAttest s₁ "0xb" "f1" "cid2" "0x" 2) "f1" = true :=
  attest_duplicate_rejected emptyLedger "0xa" "0xb" "f1" "cid1" "cid2" "0x" "0x" 1 2 rfl

/-- Claim C10: `getUserAttestationCount` equals the length of
`getUserCids`; a successful `attestExpense` appends exactly the new
`cid` to the caller's list and leaves every other user's list unchanged;
and every contract operation (including reverted attests and
`registerPublicKey`) extends each user's list by a (possibly empty)
suffix — nothing is ever removed or reordered. -/
theorem user_cid_list_append_only :
    (∀ s u, getUserAttestationCount s u = (getUserCids s u).length) ∧
    (∀ s sender f cid meta ts s₁,
       attestExpense s sender f cid meta ts = .ok s₁ →
       getUserCids s₁ sender = getUserCids s sender ++ [cid] ∧
       ∀ u, u ≠ sender → getUserCids s₁ u = getUserCids s u) ∧
    (∀ s op u, ∃ t, getUserCids (ledgerStep s op) u = getUserCids s u ++ t) := by
  refine ⟨fun s u => rfl, ?_, ?_⟩
  · intro s sender f cid meta ts s₁ h
    unfold attestExpense at h
    split at h
    · simp at h
    · injection h with h
      subst h
      constructor
      · simp [getUserCids]
      · intro u hu
        simp [getUserCids, hu]
  · intro s op u
    cases op with
    | attest sender f cid meta ts =>
        by_cases hb : s.attestedHashes f = true
        · exact ⟨[], by simp [ledgerStep, applyAttest, attestExpense, hb, getUserCids]⟩
        · by_cases hu : u = sender
          · subst hu
            exact ⟨[cid], by simp [ledgerStep, applyAttest, attestExpense, hb, getUserCids]⟩
          · exact ⟨[], by simp [ledgerStep, applyAttest, attestExpense, hb, getUserCids, hu]⟩
    | registerKey sender pk =>
        exact ⟨[], by simp [ledgerStep, registerPublicKey, getUserCids]⟩

theorem confirmStatus_cid (c : String) (r : ExpenseRecord) :
    (confirmStatus c r).cid = r.cid := by
  unfold confirmStatus; split <;> rfl

theorem confirmStatus_hash (c : String) (r : ExpenseRecord) :
    (confirmStatus c r).submissionHash = r.submissionHash := by
  unfold confirmStatus; split <;> rfl

theorem confirmStatus_idem (c : String) (r : ExpenseRecord) :
    confirmStatus c (confirmStatus c r) = confirmStatus c r := by
  by_cases h : r.cid = c
  · simp [confirmStatus, h]
  · simp [confirmStatus, h]

theorem findByCid_map_confirm (a c : String) (db : List ExpenseRecord) :
    findByCid (db.map (confirmStatus a)) c = (findByCid db c).map (confirmStatus a) := by
  induction db with
  | nil => rfl
  | cons r rest ih =>
      simp only [List.map_cons, findByCid, confirmStatus_cid]
      by_cases h : r.cid = c
      · simp [h]
      · simp [h, ih]

theorem findByCid_none (db : List ExpenseRecord) (c : String)
    (h : findByCid db c = none) : ∀ r ∈ db, r.cid ≠ c := by
  induction db with
  | nil => intro r hr; cases hr
  | cons x rest ih =>
      intro r hr
      unfold findByCid at h
      by_cases hx : x.cid = c
      · rw [if_pos hx] at h; simp at h
      · rw [if_neg hx] at h
        rcases List.mem_cons.mp hr with rfl | hr2
        · exact hx
        · exact ih h r hr2

theorem findByCid_some_mem (db : List ExpenseRecord) (c : String) (r : ExpenseRecord)
    (h : findByCid db c = some r) : r ∈ db ∧ r.cid = c := by
  induction db with
  | nil => simp [findByCid] at h
  | cons x rest ih =>
      unfold findByCid at h
      by_cases hx : x.cid = c
      · rw [if_pos hx] at h
        injection h with h
        subst h
        exact ⟨List.mem_cons_self _ _, hx⟩
      · rw [if_neg hx] at h
        obtain ⟨hm, hc⟩ := ih h
        exact ⟨List.mem_cons_of_mem _ hm, hc⟩

theorem findByCid_append_left (db₁ db₂ : List ExpenseRecord) (c : String)
    (r : ExpenseRecord) (h : findByCid db₁ c = some r) :
    findByCid (db₁ ++ db₂) c = some r := by
  induction db₁ with
  | nil => simp [findByCid] at h
  | cons x rest ih =>
      rw [List.cons_append]
      unfold findByCid at h ⊢
      by_cases hx : x.cid = c
      · rw [if_pos hx] at h ⊢; exact h
      · rw [if_neg hx] at h ⊢; exact ih h

theorem findByCid_append_none (db₁ db₂ : List ExpenseRecord) (c : String)
    (h : findByCid db₁ c = none) :
    findByCid (db₁ ++ db₂) c = findByCid db₂ c := by
  induction db₁ with
  | nil => rfl
  | cons x rest ih =>
      rw [List.cons_append]
      unfold findByCid at h
      by_cases hx : x.cid = c
      · rw [if_pos hx] at h; simp at h
      · rw [if_neg hx] at h
        show (if x.cid = c then some x else findByCid (rest ++ db₂) c) = findByCid db₂ c
        rw [if_neg hx]
        exact ih h

theorem hashTaken_exists (db : List ExpenseRecord) (h : String)
    (ht : hashTaken db h = true) : ∃ r ∈ db, r.submissionHash = h := by
  induction db with
  | nil => simp [hashTaken] at ht
  | cons x rest ih =>
      unfold hashTaken at ht
      simp only [Bool.or_eq_true, decide_eq_true_eq] at ht
      rcases ht with h1 | h2
      · exact ⟨x, List.mem_cons_self _ _, h1⟩
      · obtain ⟨r, hr, he⟩ := ih h2
        exact ⟨r, List.mem_cons_of_mem _ hr, he⟩

theorem mem_cidsOf (db : List ExpenseRecord) (x : String) :
    x ∈ cidsOf db ↔ ∃ r ∈ db, r.cid = x := by
  simp [cidsOf, List.mem_map]

theorem cidsOf_map_confirm (a : String) (db : List ExpenseRecord) :
    cidsOf (db.map (confirmStatus a)) = cidsOf db := by
  induction db with
  | nil => rfl
  | cons r rest ih =>
      simp only [cidsOf, List.map_cons] at ih ⊢
      rw [confirmStatus_cid, ih]

theorem cidsOf_append_single (db : List ExpenseRecord) (r : ExpenseRecord) :
    cidsOf (db ++ [r]) = cidsOf db ++ [r.cid] := by
  simp [cidsOf]

theorem handleEvent_of_found (db : List ExpenseRecord) (e : AttestEvent) (now : Nat)
    (r : ExpenseRecord) (h : findByCid db e.cid = some r) :
    handleEvent db e now = db.map (confirmStatus e.cid) := by
  unfold handleEvent
  rw [h]

theorem handleEvent_of_dropped (db : List ExpenseRecord) (e : AttestEvent) (now : Nat)
    (h : findByCid db e.cid = none) (ht : hashTaken db e.submissionHash = true) :
    handleEvent db e now = db := by
  simp [handleEvent, h, ht]

theorem handleEvent_of_insert (db : List ExpenseRecord) (e : AttestEvent) (now : Nat)
    (h : findByCid db e.cid = none) (ht : hashTaken db e.submissionHash = false) :
    handleEvent db e now = db ++ [freshRecord e now] := by
  simp [handleEvent, h, ht]

theorem mem_cidsOf_handleEvent (db : List ExpenseRecord) (e : AttestEvent) (now : Nat)
    (hcompat : ∀ r ∈ db, r.submissionHash = e.submissionHash → r.cid = e.cid) :
    ∀ x, x ∈ cidsOf (handleEvent db e now) ↔ x ∈ cidsOf db ∨ x = e.cid := by
  intro x
  cases hf : findByCid db e.cid with
  | some r =>
      rw [handleEvent_of_found db e now r hf, cidsOf_map_confirm]
      obtain ⟨hm, hc⟩ := findByCid_some_mem db e.cid r hf
      constructor
      · exact Or.inl
      · rintro (hx | rfl)
        · exact hx
        · exact (mem_cidsOf db _).mpr ⟨r, hm, hc⟩
  | none =>
      cases ht : hashTaken db e.submissionHash with
      | true =>
          rw [handleEvent_of_dropped db e now hf ht]
          obtain ⟨r, hm, he⟩ := hashTaken_exists db _ ht
          have hc := hcompat r hm he
          constructor
          · exact Or.inl
          · rintro (hx | rfl)
            · exact hx
            · exact (mem_cidsOf db _).mpr ⟨r, hm, hc⟩
      | false =>
          rw [handleEvent_of_insert db e now hf ht, cidsOf_append_single]
          show x ∈ cidsOf db ++ [(freshRecord e now).cid] ↔ _
          simp [freshRecord, List.mem_append]

theorem nodup_cidsOf_handleEvent (db : List ExpenseRecord) (e : AttestEvent) (now : Nat)
    (h : (cidsOf db).Nodup) : (cidsOf (handleEvent db e now)).Nodup := by
  cases hf : findByCid db e.cid with
  | some r =>
      rw [handleEvent_of_found db e now r hf, cidsOf_map_confirm]
      exact h
  | none =>
      cases ht : hashTaken db e.submissionHash with
      | true =>
          rw [handleEvent_of_dropped db e now hf ht]
          exact h
      | false =>
          rw [handleEvent_of_insert db e now hf ht, cidsOf_append_single]
          have hnot : (freshRecord e now).cid ∉ cidsOf db := by
            intro hx
            obtain ⟨r, hm, hc⟩ := (mem_cidsOf db _).mp hx
            exact findByCid_none db e.cid hf r hm hc
          simp [List.nodup_append, h, hnot]

theorem handleEvent_compat (db : List ExpenseRecord) (e : AttestEvent) (now : Nat)
    (e' : AttestEvent)
    (hdb : ∀ r ∈ db, r.submissionHash = e'.submissionHash → r.cid = e'.cid)
    (hee : e.submissionHash = e'.submissionHash → e.cid = e'.cid) :
    ∀ r ∈ handleEvent db e now, r.submissionHash = e'.submissionHash → r.cid = e'.cid := by
  intro r hr hh
  cases hf : findByCid db e.cid with
  | some r₀ =>
      rw [handleEvent_of_found db e now r₀ hf] at hr
      obtain ⟨r₁, hm, rfl⟩ := List.mem_map.mp hr
      rw [confirmStatus_cid]
      exact hdb r₁ hm (by rwa [confirmStatus_hash] at hh)
  | none =>
      cases ht : hashTaken db e.submissionHash with
      | true =>
          rw [handleEvent_of_dropped db e now hf ht] at hr
          exact hdb r hr hh
      | false =>
          rw [handleEvent_of_insert db e now hf ht] at hr
          rcases List.mem_append.mp hr with hr | hr
          · exact hdb r hr hh
          · rw [List.mem_singleton.mp hr]
            rw [List.mem_singleton.mp hr] at hh
            exact hee hh

/-- Closed instance: count/list agreement on the empty ledger, the
append of one successful attest, and suffix extension under a
`registerPublicKey` step. -/
theorem user_cid_list_append_only_witness :
    getUserAttestationCount emptyLedger "0xa" = (getUserCids emptyLedger "0xa").length ∧
    (getUserCids ledger1 "0xa" = getUserCids emptyLedger "0xa" ++ ["cid1"] ∧
     ∀ u, u ≠ "0xa" → getUserCids ledger1 u = getUserCids emptyLedger u) ∧
    (∃ t, getUserCids (ledgerStep ledger1 (.registerKey "0xa" "pk")) "0xa" =
       getUserCids ledger1 "0xa" ++ t) :=
  ⟨user_cid_list_append_only.1 emptyLedger "0xa",
   user_cid_list_append_only.2.1 emptyLedger "0xa" "f1" "cid1" "0x" 1 ledger1 rfl,
   user_cid_list_append_only.2.2 ledger1 (.registerKey "0xa" "pk") "0xa"⟩

theorem map_confirm_idem (c : String) (db : List ExpenseRecord) :
    (db.map (confirmStatus c)).map (confirmStatus c) = db.map (confirmStatus c) := by
  induction db with
  | nil => rfl
  | cons r rest ih => simp only [List.map_cons, confirmStatus_idem, ih]

theorem map_confirm_of_none (c : String) (db : List ExpenseRecord)
    (h : ∀ r ∈ db, r.cid ≠ c) : db.map (confirmStatus c) = db := by
  induction db with
  | nil => rfl
  | cons r rest ih =>
      have hr : r.cid ≠ c := h r (List.mem_cons_self _ _)
      simp only [List.map_cons]
      rw [show confirmStatus c r = r from by simp [confirmStatus, hr]]
      rw [ih (fun x hx => h x (List.mem_cons_of_mem _ hx))]

theorem replay_cids (evs : List (AttestEvent × Nat)) :
    ∀ db : List ExpenseRecord, (cidsOf db).Nodup →
      (∀ p ∈ evs, ∀ q ∈ evs,
         (p.1).submissionHash = (q.1).submissionHash → p.1 = q.1) →
      (∀ r ∈ db, ∀ p ∈ evs, r.submissionHash = (p.1).submissionHash → r.cid = (p.1).cid) →
      (cidsOf (replay db evs)).Nodup ∧
      (∀ x, x ∈ cidsOf (replay db evs) ↔
         x ∈ cidsOf db ∨ x ∈ evs.map (fun p => (p.1).cid)) := by
  induction evs with
  | nil =>
      intro db h _ _
      exact ⟨h, by simp [replay]⟩
  | cons p rest ih =>
      intro db hnd hpair hcompat
      obtain ⟨e, now⟩ := p
      have hce : ∀ r ∈ db, r.submissionHash = e.submissionHash → r.cid = e.cid := by
        intro r hr hh
        exact hcompat r hr (e, now) (List.mem_cons_self _ _) hh
      have hnd' := nodup_cidsOf_handleEvent db e now hnd
      have hcompat' : ∀ r ∈ handleEvent db e now, ∀ q ∈ rest,
          r.submissionHash = (q.1).submissionHash → r.cid = (q.1).cid := by
        intro r hr q hq hh
        refine handleEvent_compat db e now q.1 ?_ ?_ r hr hh
        · intro r' hr' hh'
          exact hcompat r' hr' q (List.mem_cons_of_mem _ hq) hh'
        · intro hh'
          have heq := hpair (e, now) (List.mem_cons_self _ _) q
            (List.mem_cons_of_mem _ hq) hh'
          exact congrArg (fun a => a.cid) heq
      have hpair' : ∀ p' ∈ rest, ∀ q ∈ rest,
          (p'.1).submissionHash = (q.1).submissionHash → p'.1 = q.1 :=
        fun p' hp' q hq =>
          hpair p' (List.mem_cons_of_mem _ hp') q (List.mem_cons_of_mem _ hq)
      obtain ⟨h1, h2⟩ := ih (handleEvent db e now) hnd' hpair' hcompat'
      refine ⟨h1, fun x => ?_⟩
      rw [show replay db ((e, now) :: rest) = replay (handleEvent db e now) rest from rfl]
      rw [h2 x, mem_cidsOf_handleEvent db e now hce x]
      simp only [List.map_cons, List.mem_cons]
      tauto

/-- Claim C2: Replaying any sequence of `Attested` events (any
multiplicity, any order; the events carrying pairwise-consistent
fingerprints, as any stream emitted by the ledger does) through the
listener leaves the store with no duplicate `contentAddress`, and with a
record for exactly the content addresses observed; and `handleEvent` is
idempotent: processing the same event twice equals processing it
once. -/
theorem indexer_replay_idempotent :
    (∀ evs : List (AttestEvent × Nat),
       (∀ p ∈ evs, ∀ q ∈ evs,
          (p.1).submissionHash = (q.1).submissionHash → p.1 = q.1) →
       (cidsOf (replay [] evs)).Nodup ∧
       ∀ c, c ∈ cidsOf (replay [] evs) ↔ c ∈ evs.map (fun p => (p.1).cid)) ∧
    (∀ db e now now', handleEvent (handleEvent db e now) e now' = handleEvent db e now) := by
  constructor
  · intro evs hpair
    obtain ⟨h1, h2⟩ := replay_cids evs []
      (by simp [cidsOf]) hpair (by intro r hr; cases hr)
    refine ⟨h1, fun c => ?_⟩
    rw [h2 c]
    simp [cidsOf]
  · intro db e now now'
    cases hf : findByCid db e.cid with
    | some r =>
        rw [handleEvent_of_found db e now r hf]
        have hf' : findByCid (db.map (confirmStatus e.cid)) e.cid =
            some (confirmStatus e.cid r) := by
          rw [findByCid_map_confirm, hf]
          rfl
        rw [handleEvent_of_found _ e now' _ hf']
        exact map_confirm_idem e.cid db
    | none =>
        cases ht : hashTaken db e.submissionHash with
        | true =>
            rw [handleEvent_of_dropped db e now hf ht,
              handleEvent_of_dropped db e now' hf ht]
        | false =>
            rw [handleEvent_of_insert db e now hf ht]
            have hf2 : findByCid (db ++ [freshRecord e now]) e.cid =
                some (freshRecord e now) := by
              rw [findByCid_append_none db _ _ hf]
              simp [findByCid, freshRecord]
            rw [handleEvent_of_found _ e now' _ hf2, List.map_append]
            congr 1
            · exact map_confirm_of_none e.cid db (findByCid_none db e.cid hf)
            · simp [confirmStatus, freshRecord]

/-- Closed instance: a three-delivery replay (one event redelivered out
of order) indexes exactly one record per content address, and a
concrete double delivery equals a single one. -/
theorem indexer_replay_idempotent_witness :
    (cidsOf (replay [] [(ev1, 5), (ev2, 6), (ev1, 7)])).Nodup ∧
    ("cid1" ∈ cidsOf (replay [] [(ev1, 5), (ev2, 6), (ev1, 7)]) ↔
       "cid1" ∈ [(ev1, 5), (ev2, 6), (ev1, 7)].map (fun p => (p.1).cid)) ∧
    handleEvent (handleEvent [] ev1 5) ev1 6 = handleEvent [] ev1 5 :=
  ⟨(indexer_replay_idempotent.1 [(ev1, 5), (ev2, 6), (ev1, 7)] (by decide)).1,
   (indexer_replay_idempotent.1 [(ev1, 5), (ev2, 6), (ev1, 7)] (by decide)).2 "cid1",
   indexer_replay_idempotent.2 [] ev1 5 6⟩

theorem findByCid_handleEvent_step (db : List ExpenseRecord) (e : AttestEvent)
    (now : Nat) (c : String) (r : ExpenseRecord) (h : findByCid db c = some r) :
    findByCid (handleEvent db e now) c = some r ∨
    findByCid (handleEvent db e now) c = some { r with status := "confirmed" } := by
  cases hf : findByCid db e.cid with
  | some r₀ =>
      rw [handleEvent_of_found db e now r₀ hf, findByCid_map_confirm, h]
      by_cases hc : r.cid = e.cid
      · right
        simp [confirmStatus, hc]
      · left
        simp [confirmStatus, hc]
  | none =>
      cases ht : hashTaken db e.submissionHash with
      | true =>
          left
          rw [handleEvent_of_dropped db e now hf ht]
          exact h
      | false =>
          left
          rw [handleEvent_of_insert db e now hf ht]
          exact findByCid_append_left db _ c r h

theorem findByCid_replay (evs : List (AttestEvent × Nat)) :
    ∀ db c r, findByCid db c = some r →
      ∃ r', findByCid (replay db evs) c = some r' ∧
        (r' = r ∨ r' = { r with status := "confirmed" }) := by
  induction evs with
  | nil =>
      intro db c r h
      exact ⟨r, h, Or.inl rfl⟩
  | cons p rest ih =>
      intro db c r h
      obtain ⟨e, now⟩ := p
      rcases findByCid_handleEvent_step db e now c r h with h' | h'
      · exact ih (handleEvent db e now) c r h'
      · obtain ⟨r', hr', hcase⟩ := ih (handleEvent db e now) c _ h'
        refine ⟨r', hr', ?_⟩
        rcases hcase with rfl | rfl
        · exact Or.inr rfl
        · exact Or.inr rfl

/-- Claim C3: When the listener re-observes a content address that is
already stored, only `status` is written (to `"confirmed"`); every other
field keeps its first-writer value; rows with other content addresses
are untouched; and along any replay the row under a key either stays
exactly as it was or becomes its `status := "confirmed"` copy — in
particular a confirmed row never reverts to pending. -/
theorem upsert_frame_and_monotonic :
    (∀ db e now r, findByCid db e.cid = some r →
       findByCid (handleEvent db e now) e.cid = some { r with status := "confirmed" }) ∧
    (∀ db e now r, r ∈ db → r.cid ≠ e.cid → r ∈ handleEvent db e now) ∧
    (∀ evs db c r, findByCid db c = some r →
       ∃ r', findByCid (replay db evs) c = some r' ∧
         (r' = r ∨ r' = { r with status := "confirmed" })) ∧
    (∀ evs db c r, findByCid db c = some r → r.status = "confirmed" →
       ∃ r', findByCid (replay db evs) c = some r' ∧ r'.status = "confirmed" ∧
         r'.userAddress = r.userAddress ∧ r'.submissionHash = r.submissionHash ∧
         r'.category = r.category ∧ r'.note = r.note ∧
         r'.timestamp = r.timestamp ∧ r'.createdAt = r.createdAt) := by
  refine ⟨?_, ?_, fun evs db c r h => findByCid_replay evs db c r h, ?_⟩
  · intro db e now r h
    rw [handleEvent_of_found db e now r h, findByCid_map_confirm, h]
    have hc : r.cid = e.cid := (findByCid_some_mem db e.cid r h).2
    simp [confirmStatus, hc]
  · intro db e now r hm hne
    cases hf : findByCid db e.cid with
    | some r₀ =>
        rw [handleEvent_of_found db e now r₀ hf]
        have hfix : confirmStatus e.cid r = r := by simp [confirmStatus, hne]
        exact hfix ▸ List.mem_map_of_mem _ hm
    | none =>
        cases ht : hashTaken db e.submissionHash with
        | true =>
            rw [handleEvent_of_dropped db e now hf ht]
            exact hm
        | false =>
            rw [handleEvent_of_insert db e now hf ht]
            exact List.mem_append_left _ hm
  · intro evs db c r h hconf
    obtain ⟨r', hr', hcase⟩ := findByCid_replay evs db c r h
    rcases hcase with rfl | rfl
    · exact ⟨r', hr', hconf, rfl, rfl, rfl, rfl, rfl, rfl⟩
    · exact ⟨_, hr', rfl, rfl, rfl, rfl, rfl, rfl, rfl⟩

/-- Closed instance: re-observing the pending row for `cidA` confirms it
in place, an unrelated row survives, and a confirmed row stays confirmed
across a further replay. -/
theorem upsert_frame_and_monotonic_witness :
    findByCid (handleEvent [rowPending] evA 7) evA.cid =
      some { rowPending with status := "confirmed" } ∧
    rowLateTs ∈ handleEvent [rowPending, rowLateTs] evA 7 ∧
    (∃ r', findByCid (replay [rowPending] [(evA, 7)]) "cidA" = some r' ∧
       (r' = rowPending ∨ r' = { rowPending with status := "confirmed" })) ∧
    (∃ r', findByCid (replay [rowEarlyTs] [(evA, 8)]) "cidA" = some r' ∧
       r'.status = "confirmed" ∧
       r'.userAddress = rowEarlyTs.userAddress ∧
       r'.submissionHash = rowEarlyTs.submissionHash ∧
       r'.category = rowEarlyTs.category ∧ r'.note = rowEarlyTs.note ∧
       r'.timestamp = rowEarlyTs.timestamp ∧ r'.createdAt = rowEarlyTs.createdAt) :=
  ⟨upsert_frame_and_monotonic.1 [rowPending] evA 7 rowPending (by decide),
   upsert_frame_and_monotonic.2.1 [rowPending, rowLateTs] evA 7 rowLateTs
     (by decide) (by decide),
   upsert_frame_and_monotonic.2.2.1 [(evA, 7)] [rowPending] "cidA" rowPending (by decide),
   upsert_frame_and_monotonic.2.2.2 [(evA, 8)] [rowEarlyTs] "cidA" rowEarlyTs
     (by decide) (by decide)⟩

/-- Claim C6: The proof route returns 404 for an unknown content address;
a successful response serializes exactly the metadata keys
`cid, submissionHash, txHash, blockNumber, timestamp, userAddress,
category` — never an `amount` key or any decrypted payload (the indexed
row itself stores no plaintext amount at all). -/
theorem proof_route_metadata_only :
    (∀ db cid, findByCid db cid = none → getProof db cid = Except.error 404) ∧
    (∀ p : ProofPayload, (renderProof p).map Prod.fst = proofKeys) ∧
    ("amount" ∉ proofKeys) ∧
    (∀ db cid p k v, getProof db cid = Except.ok p → (k, v) ∈ renderProof p →
       k ∈ proofKeys ∧ k ≠ "amount") := by
  refine ⟨?_, fun p => rfl, by decide, ?_⟩
  · intro db cid h
    unfold getProof
    rw [h]
  · intro db cid p k v _ hk
    have hkeys : k ∈ (renderProof p).map Prod.fst := List.mem_map_of_mem _ hk
    rw [show (renderProof p).map Prod.fst = proofKeys from rfl] at hkeys
    exact ⟨hkeys, fun heq => absurd (heq ▸ hkeys) (by decide)⟩

/-- Closed instance: 404 on an unknown cid in the fixture table, and a
serialized field of the served proof for `cidA` is a metadata key and
not `amount`. -/
theorem proof_route_metadata_only_witness :
    getProof dbProof "missing-cid" = Except.error 404 ∧
    ("userAddress" ∈ proofKeys ∧ "userAddress" ≠ "amount") :=
  ⟨proof_route_metadata_only.1 dbProof "missing-cid" (by decide),
   proof_route_metadata_only.2.2.2 dbProof "cidA" proofA "userAddress" "0xa1"
     rfl (by decide)⟩

theorem mem_insertTsDesc (r x : ExpenseRecord) (l : List ExpenseRecord) :
    x ∈ insertTsDesc r l ↔ x = r ∨ x ∈ l := by
  induction l with
  | nil => simp [insertTsDesc]
  | cons y ys ih =>
      unfold insertTsDesc
      by_cases h : r.timestamp ≤ y.timestamp
      · rw [if_pos h]
        simp only [List.mem_cons, ih]
        tauto
      · rw [if_neg h]
        simp only [List.mem_cons]

theorem pairwise_insertTsDesc (r : ExpenseRecord) (l : List ExpenseRecord)
    (h : l.Pairwise tsGE) : (insertTsDesc r l).Pairwise tsGE := by
  induction l with
  | nil => simp [insertTsDesc]
  | cons x xs ih =>
      rw [List.pairwise_cons] at h
      obtain ⟨hx, hxs⟩ := h
      unfold insertTsDesc
      by_cases hle : r.timestamp ≤ x.timestamp
      · rw [if_pos hle]
        rw [List.pairwise_cons]
        refine ⟨?_, ih hxs⟩
        intro b hb
        rcases (mem_insertTsDesc r b xs).mp hb with rfl | hbxs
        · exact hle
        · exact hx b hbxs
      · rw [if_neg hle]
        push_neg at hle
        rw [List.pairwise_cons]
        refine ⟨?_, List.pairwise_cons.mpr ⟨hx, hxs⟩⟩
        intro b hb
        rcases List.mem_cons.mp hb with rfl | hbxs
        · exact Nat.le_of_lt hle
        · exact Nat.le_trans (hx b hbxs) (Nat.le_of_lt hle)

theorem pairwise_sortTsDesc (l : List ExpenseRecord) :
    (sortTsDesc l).Pairwise tsGE := by
  induction l with
  | nil => simp [sortTsDesc]
  | cons x xs ih => exact pairwise_insertTsDesc x (sortTsDesc xs) ih

theorem length_insertTsDesc (r : ExpenseRecord) (l : List ExpenseRecord) :
    (insertTsDesc r l).length = l.length + 1 := by
  induction l with
  | nil => rfl
  | cons y ys ih =>
      unfold insertTsDesc
      by_cases h : r.timestamp ≤ y.timestamp
      · rw [if_pos h]
        simp [ih]
      · rw [if_neg h]
        simp

theorem length_sortTsDesc (l : List ExpenseRecord) :
    (sortTsDesc l).length = l.length := by
  induction l with
  | nil => rfl
  | cons x xs ih =>
      show (insertTsDesc x (sortTsDesc xs)).length = xs.length + 1
      rw [length_insertTsDesc, ih]

/-- Claim C7, counterexample: The records route as implemented refutes the
claim: its output is ordered by the on-chain event `timestamp`, not by
`createdAt` (the two columns can be inverted, e.g. by backfilling an old
event late), and no server-side hard maximum caps the requested
limit. -/
theorem list_records_claim_false :
    ¬ claimListRecords ∧
    ¬ (∃ hardMax : Nat, ∀ db (limit : Nat) category userAddress,
        (listRecords db (some limit) category userAddress).length ≤ hardMax) := by
  constructor
  · intro h
    have hx := h.1 [rowEarlyTs, rowLateTs] none none none
    revert hx
    decide
  · rintro ⟨M, hM⟩
    have hx := hM (List.replicate (M + 1) rowEarlyTs) (M + 1) none none
    have hfilter : (List.replicate (M + 1) rowEarlyTs).filter
        (matchesFilter none none) = List.replicate (M + 1) rowEarlyTs := by
      apply List.filter_eq_self.mpr
      intro a _
      rfl
    unfold listRecords at hx
    rw [hfilter] at hx
    rw [List.length_take, length_sortTsDesc, List.length_replicate,
      Option.getD_some] at hx
    omega

/-- Claim C7 as amended: `listRecords` returns rows ordered by the event
`timestamp` descending; the result size is capped by the requested
limit, which defaults to 50 when absent; no further server-side maximum
exists. -/
theorem list_records_sorted_by_timestamp :
    ∀ db limit category userAddress,
      (listRecords db limit category userAddress).Pairwise tsGE ∧
      (listRecords db limit category userAddress).length ≤ limit.getD 50 ∧
      listRecords db none category userAddress =
        listRecords db (some 50) category userAddress := by
  intro db limit category userAddress
  refine ⟨?_, ?_, rfl⟩
  · exact List.Pairwise.sublist (List.take_sublist _ _) (pairwise_sortTsDesc _)
  · exact List.length_take_le _ _

theorem fetchAll_error_of_mem (fetch : String → Except String String)
    (cids : List String) (cid m : String)
    (hm : cid ∈ cids) (hf : fetch cid = .error m) :
    ∃ m', fetchAll fetch cids = .error m' := by
  induction cids with
  | nil => cases hm
  | cons x rest ih =>
      unfold fetchAll
      rcases List.mem_cons.mp hm with rfl | hmem
      · rw [hf]
        exact ⟨m, rfl⟩
      · cases hx : fetch x with
        | error m' => exact ⟨m', rfl⟩
        | ok ct =>
            obtain ⟨m', hm'⟩ := ih hmem
            rw [hm']
            exact ⟨m', rfl⟩

theorem aggregate_error_of_mem (fetch : String → Except String String)
    (url : String) (engine : EngineRequest → Except String CoprocessorResponse)
    (rand : Nat → Nat) (cids : List String) (op cid m : String)
    (hm : cid ∈ cids) (hf : fetch cid = .error m) :
    ∃ m', aggregate fetch url engine rand cids op =
      .error ("Coprocessor aggregation failed: " ++ m') := by
  obtain ⟨m', hall⟩ := fetchAll_error_of_mem fetch cids cid m hm hf
  refine ⟨m', ?_⟩
  unfold aggregate
  rw [hall]

/-- Claim C4: If fetching any one of the referenced ciphertexts fails, the
whole aggregation batch fails (the error is re-thrown with the
`Coprocessor aggregation failed:` prefix) and no partial aggregate
result is returned. -/
theorem aggregate_fails_whole_batch (fetch : String → Except String String)
    (url : String) (engine : EngineRequest → Except String CoprocessorResponse)
    (rand : Nat → Nat) (cids : List String) (op cid m : String)
    (hm : cid ∈ cids) (hf : fetch cid = .error m) :
    (∃ m', aggregate fetch url engine rand cids op =
        .error ("Coprocessor aggregation failed: " ++ m')) ∧
    ∀ result, aggregate fetch url engine rand cids op ≠ .ok result := by
  obtain ⟨m', he⟩ := aggregate_error_of_mem fetch url engine rand cids op cid m hm hf
  refine ⟨⟨m', he⟩, ?_⟩
  intro result hok
  rw [he] at hok
  cases hok

/-- Closed instance: the batch `["CIDx"]` against a store that fails on
`CIDx` yields the batch error and never a result. -/
theorem aggregate_fails_whole_batch_witness :
    (∃ m', aggregate fetchCIDx "" engineDown randZero ["CIDx"] "sum" =
       .error ("Coprocessor aggregation failed: " ++ m')) ∧
    ∀ result, aggregate fetchCIDx "" engineDown randZero ["CIDx"] "sum" ≠ .ok result :=
  aggregate_fails_whole_batch fetchCIDx "" engineDown randZero ["CIDx"] "sum"
    "CIDx" "fetch failed" (by decide) rfl

/-- Claim C5: The aggregate route rejects a missing, non-array or empty
`cids` field with HTTP 400, rejects any effective op outside
`sum/max/min/avg` with HTTP 400, and any such rejection is computed
without consulting the content store or the engine: the response is
identical under arbitrary store/engine/randomness oracles. -/
theorem aggregate_route_validation :
    (∀ fetch url engine rand op,
       postAggregate fetch url engine rand { cids := .missing, op := op } =
         .badRequest "cids array is required and must not be empty" ∧
       postAggregate fetch url engine rand { cids := .notArray, op := op } =
         .badRequest "cids array is required and must not be empty" ∧
       postAggregate fetch url engine rand { cids := .arr [], op := op } =
         .badRequest "cids array is required and must not be empty") ∧
    (∀ fetch url engine rand (cids : List String) (op : String),
       cids ≠ [] →
       ¬(op = "sum" ∨ op = "max" ∨ op = "min" ∨ op = "avg") →
       postAggregate fetch url engine rand { cids := .arr cids, op := some op } =
         .badRequest "Invalid operation. Must be: sum, max, min, avg") ∧
    (∀ body, validBody body = false →
       ∀ f₁ f₂ u₁ u₂ e₁ e₂ r₁ r₂,
         postAggregate f₁ u₁ e₁ r₁ body = postAggregate f₂ u₂ e₂ r₂ body ∧
         (postAggregate f₁ u₁ e₁ r₁ body).status = 400) := by
  refine ⟨?_, ?_, ?_⟩
  · intro fetch url engine rand op
    exact ⟨rfl, rfl, by simp [postAggregate]⟩
  · intro fetch url engine rand cids op hne hop
    cases cids with
    | nil => exact absurd rfl hne
    | cons x xs =>
        simp [postAggregate, hop]
  · intro body hv f₁ f₂ u₁ u₂ e₁ e₂ r₁ r₂
    match body with
    | { cids := .missing, op := op } => exact ⟨rfl, rfl⟩
    | { cids := .notArray, op := op } => exact ⟨rfl, rfl⟩
    | { cids := .arr [], op := op } =>
        refine ⟨?_, ?_⟩ <;> simp [postAggregate, AggResponse.status]
    | { cids := .arr (x :: xs), op := op } =>
        have hnot : ¬(op.getD "sum" = "sum" ∨ op.getD "sum" = "max" ∨
            op.getD "sum" = "min" ∨ op.getD "sum" = "avg") := by
          unfold validBody at hv
          simp only [Bool.or_eq_false_iff, decide_eq_false_iff_not] at hv
          tauto
        refine ⟨?_, ?_⟩ <;> simp [postAggregate, hnot, AggResponse.status]

/-- Closed instance: the three malformed-`cids` rejections, the
invalid-op rejection, and oracle-independence of a rejected body. -/
theorem aggregate_route_validation_witness :
    (postAggregate fetchCIDx "" engineDown randZero
       { cids := .missing, op := none } =
       .badRequest "cids array is required and must not be empty" ∧
     postAggregate fetchCIDx "" engineDown randZero
       { cids := .notArray, op := none } =
       .badRequest "cids array is required and must not be empty" ∧
     postAggregate fetchCIDx "" engineDown randZero
       { cids := .arr [], op := none } =
       .badRequest "cids array is required and must not be empty") ∧
    postAggregate fetchCIDx "" engineDown randZero
      { cids := .arr ["QmA"], op := some "median" } =
      .badRequest "Invalid operation. Must be: sum, max, min, avg" ∧
    (postAggregate fetchCIDx "" engineDown randZero
       { cids := .arr [], op := some "sum" } =
     postAggregate gatewayOk "http://coproc" engineDown randZero
       { cids := .arr [], op := some "sum" } ∧
     (postAggregate fetchCIDx "" engineDown randZero
       { cids := .arr [], op := some "sum" }).status = 400) :=
  ⟨aggregate_route_validation.1 fetchCIDx "" engineDown randZero none,
   aggregate_route_validation.2.1 fetchCIDx "" engineDown randZero ["QmA"] "median"
     (by decide) (by decide),
   aggregate_route_validation.2.2 { cids := .arr [], op := some "sum" } rfl
     fetchCIDx gatewayOk "" "http://coproc" engineDown engineDown randZero randZero⟩

/-- Claim C8, counterexample: The claim is false as stated: with the engine
URL unset the service never attempts the engine at all (zero attempts,
not one) before answering from the mock. -/
theorem engine_fallback_claim_false : ¬ claimEngineFallback := by
  intro h
  have hx := (h "" engineDown randZero ["Y3Q="] "sum" (Or.inl rfl)).1
  simp [callRealCoprocessor] at hx

/-- Claim C8 as amended: The service makes at most one engine attempt (zero
retries): zero attempts when the engine URL is unset, exactly one when
the URL is set and the call fails — in both cases the mock result is
returned — and an engine failure is never surfaced by `aggregate`: when
every fetch succeeds, `aggregate` returns ok. -/
theorem engine_fallback_amended :
    ∀ (url : String) (engine : EngineRequest → Except String CoprocessorResponse)
      (rand : Nat → Nat) (cts : List String) (op : String),
      (callRealCoprocessor url engine rand cts op).2 ≤ 1 ∧
      (url = "" →
        callRealCoprocessor url engine rand cts op =
          (callMockCoprocessor rand cts op, 0)) ∧
      (url ≠ "" → ∀ m,
        engine { ciphertexts := cts, op := op, targetType := "euint64",
                 outputFormat := "ciphertext" } = .error m →
        callRealCoprocessor url engine rand cts op =
          (callMockCoprocessor rand cts op, 1)) ∧
      (∀ fetch cids, fetchAll fetch cids = .ok cts →
        aggregate fetch url engine rand cids op = .ok
          { outputCiphertext :=
              (callRealCoprocessor url engine rand cts op).1.resultCiphertext
            metaOp := op
            metaItemsCount := cids.length
            coprocessorVersion :=
              (callRealCoprocessor url engine rand cts op).1.coprocVersion }) := by
  intro url engine rand cts op
  refine ⟨?_, ?_, ?_, ?_⟩
  · unfold callRealCoprocessor
    by_cases hu : url = ""
    · simp [hu]
    · rw [if_neg hu]
      cases engine { ciphertexts := cts, op := op, targetType := "euint64",
                     outputFormat := "ciphertext" } <;> simp
  · intro hu
    simp [callRealCoprocessor, hu]
  · intro hu m hm
    simp [callRealCoprocessor, hu, hm]
  · intro fetch cids hall
    unfold aggregate
    rw [hall]

/-- Closed instance of the amended fallback behaviour: an unset URL
makes zero attempts, a failing engine one attempt, both answering from
the mock; and a successful fetch set aggregates to ok despite the
failing engine. -/
theorem engine_fallback_amended_witness :
    (callRealCoprocessor "http://coproc" engineDown randZero ["Y3Q="] "sum").2 ≤ 1 ∧
    callRealCoprocessor "" engineDown randZero ["Y3Q="] "sum" =
      (callMockCoprocessor randZero ["Y3Q="] "sum", 0) ∧
    callRealCoprocessor "http://coproc" engineDown randZero ["Y3Q="] "sum" =
      (callMockCoprocessor randZero ["Y3Q="] "sum", 1) ∧
    aggregate gatewayOk "http://coproc" engineDown randZero ["CID1"] "sum" = .ok
      { outputCiphertext := (callRealCoprocessor "http://coproc" engineDown randZero
          ["ZGF0YQ=="] "sum").1.resultCiphertext
        metaOp := "sum"
        metaItemsCount := 1
        coprocessorVersion := (callRealCoprocessor "http://coproc" engineDown randZero
          ["ZGF0YQ=="] "sum").1.coprocVersion } :=
  ⟨(engine_fallback_amended "http://coproc" engineDown randZero ["Y3Q="] "sum").1,
   (engine_fallback_amended "" engineDown randZero ["Y3Q="] "sum").2.1 rfl,
   (engine_fallback_amended "http://coproc" engineDown randZero ["Y3Q="] "sum").2.2.1
     (by decide) "connect ECONNREFUSED" rfl,
   (engine_fallback_amended "http://coproc" engineDown randZero ["ZGF0YQ=="] "sum").2.2.2
     gatewayOk ["CID1"] rfl⟩

theorem isPre_append (pat l tail : List Char) (h : isPre pat l = true) :
    isPre pat (l ++ tail) = true := by
  induction pat generalizing l with
  | nil => rfl
  | cons a as ih =>
      cases l with
      | nil => simp [isPre] at h
      | cons b bs =>
          rw [List.cons_append]
          unfold isPre at h ⊢
          simp only [Bool.and_eq_true] at h ⊢
          exact ⟨h.1, ih bs h.2⟩

theorem hasSubstrL_of_nil_pat (l : List Char) : hasSubstrL [] l = true := by
  induction l with
  | nil => rfl
  | cons a as ih =>
      unfold hasSubstrL
      simp [isPre]

theorem hasSubstrL_append_left (pat l tail : List Char)
    (h : hasSubstrL pat l = true) : hasSubstrL pat (l ++ tail) = true := by
  induction l with
  | nil =>
      unfold hasSubstrL at h
      cases pat with
      | nil => simp [hasSubstrL_of_nil_pat]
      | cons a as => simp [List.isEmpty] at h
  | cons a as ih =>
      rw [List.cons_append]
      unfold hasSubstrL at h ⊢
      simp only [Bool.or_eq_true] at h ⊢
      rcases h with h | h
      · exact Or.inl (isPre_append pat (a :: as) tail h)
      · exact Or.inr (ih h)

/-- Claim C9: `upload` mints a `QmMockDemo...` content address whenever
the Pinata credentials are missing or the Pinata upload fails; every
such address contains the substring `Mock`, so `retrieve` always rejects
it (as it does the literal test CID), and any aggregation batch
containing a mock-minted address fails as a whole. -/
theorem mock_cid_never_aggregates :
    (∀ pinata now rand, upload false pinata now rand = getMockCid now rand) ∧
    (∀ e now rand, upload true (.error e) now rand = getMockCid now rand) ∧
    (∀ now rand, hasSubstr (getMockCid now rand) "Mock" = true) ∧
    (∀ gateway cid, hasSubstr cid "Mock" = true →
       retrieve gateway cid = .error "Mock CID detected - skipping") ∧
    (∀ gateway, retrieve gateway "QmYwAPJzv5CZsnAMockCID12345" =
       .error "Mock CID detected - skipping") ∧
    (∀ gateway url engine rand cids op now mrand,
       getMockCid now mrand ∈ cids →
       ∃ m, aggregate (retrieve gateway) url engine rand cids op =
         .error ("Coprocessor aggregation failed: " ++ m)) := by
  have hsub : ∀ now rand, hasSubstr (getMockCid now rand) "Mock" = true := by
    intro now rand
    unfold getMockCid hasSubstr
    rw [String.data_append, String.data_append, List.append_assoc]
    exact hasSubstrL_append_left _ _ _ (by decide)
  have hret : ∀ gateway cid, hasSubstr cid "Mock" = true →
      retrieve gateway cid = .error "Mock CID detected - skipping" := by
    intro gateway cid h
    simp [retrieve, h]
  refine ⟨fun pinata now rand => rfl, fun e now rand => rfl, hsub, hret, ?_, ?_⟩
  · intro gateway
    exact hret gateway _ (by decide)
  · intro gateway url engine rand cids op now mrand hm
    exact aggregate_error_of_mem (retrieve gateway) url engine rand cids op
      (getMockCid now mrand) "Mock CID detected - skipping" hm
      (hret gateway _ (hsub now mrand))

/-- Closed instance: the mock CID minted at a concrete clock/random pair
contains `Mock`, is rejected by `retrieve` even against a healthy
gateway, and poisons a whole aggregation batch. -/
theorem mock_cid_never_aggregates_witness :
    hasSubstr (getMockCid 123 "abc") "Mock" = true ∧
    retrieve gatewayOk (getMockCid 123 "abc") =
      .error "Mock CID detected - skipping" ∧
    (∃ m, aggregate (retrieve gatewayOk) "" engineDown randZero
       [getMockCid 123 "abc"] "sum" =
       .error ("Coprocessor aggregation failed: " ++ m)) :=
  ⟨mock_cid_never_aggregates.2.2.1 123 "abc",
   mock_cid_never_aggregates.2.2.2.1 gatewayOk (getMockCid 123 "abc")
     (mock_cid_never_aggregates.2.2.1 123 "abc"),
   mock_cid_never_aggregates.2.2.2.2.2 gatewayOk "" engineDown randZero
     [getMockCid 123 "abc"] "sum" 123 "abc" (List.mem_singleton.mpr rfl)⟩

end Zama
